import Mathlib

set_option linter.unusedVariables false

/-
Verification of the rifgen interface-generation engine.

The crate root (src/lib.rs) declares the configuration types and the public
builder API.  The core modules it declares (mod enums, generator_lib, maps,
text_formatter, traits, types_structs) are not present in the source tree,
so the scanning / modeling / rendering pipeline is modelled from the
specification (spec.md sections 3, 4 and 7) and every definition below that
embeds a missing module says so in its doc comment.
-/

namespace Rifgen

/-- Embeds enum TypeCases from src/lib.rs: the identifier casing policies
Default, CamelCase and SnakeCase. -/
inductive TypeCases where
  | Default
  | CamelCase
  | SnakeCase
deriving DecidableEq

/-- Embeds enum Language from src/lib.rs: the supported target dialects. -/
inductive Language where
  | Java
  | Cpp
deriving DecidableEq

/-- Modelled from the spec: Parameter (section 3) of the missing
types_structs module; a name (optional) and a textual type reference. -/
structure Parameter where
  name : Option String
  typeRef : String
deriving DecidableEq

/-- Modelled from the spec: SelfKind (section 3) of the missing
types_structs module; noSelf is the static / associated case, byRef is the
by-immutable-reference case. -/
inductive SelfKind where
  | noSelf
  | byValue
  | byRef
  | byMutRef
deriving DecidableEq

/-- Modelled from the spec: MethodDefinition (section 3) of the missing
types_structs module. -/
structure MethodDefinition where
  owningType : String
  name : String
  params : List Parameter
  returnType : Option String
  selfKind : SelfKind
  doc : List String
deriving DecidableEq

/-- Modelled from the spec: ConstructorDefinition (section 3) of the missing
types_structs module. -/
structure ConstructorDefinition where
  owningType : String
  factoryName : String
  params : List Parameter
  doc : List String
deriving DecidableEq

/-- Modelled from the spec: ClassDefinition (section 3) of the missing
types_structs module; doc comes from a doc-marked struct declaration. -/
structure ClassDefinition where
  typeName : String
  doc : List String
  constructors : List ConstructorDefinition
  methods : List MethodDefinition
deriving DecidableEq

/-- Modelled from the spec: one method signature of a TraitDefinition
(section 3) of the missing types_structs module. -/
structure TraitSig where
  name : String
  params : List Parameter
  returnType : Option String
  doc : List String
deriving DecidableEq

/-- Modelled from the spec: TraitDefinition (section 3) of the missing
types_structs module. -/
structure TraitDefinition where
  name : String
  doc : List String
  methods : List TraitSig
deriving DecidableEq

/-- Modelled from the spec: EnumDefinition (section 3) of the missing
types_structs module; variants are nominal tags. -/
structure EnumDefinition where
  name : String
  doc : List String
  variants : List String
deriving DecidableEq

/-- Modelled from the spec: the closed set of recognized marker names
(section 6) matched by the missing scanning modules; they correspond to the
attributes generate_interface, generate_interface(constructor) and
generate_interface_doc of the rifgen_attr crate. -/
inductive Marker where
  | generateInterface
  | generateInterfaceConstructor
  | generateInterfaceDoc
deriving DecidableEq

/-- Modelled from the spec: the written form of a method receiver
(section 3, SelfKind discussion) as produced by the missing source parsing
module. -/
inductive Receiver where
  | noReceiver
  | selfValue
  | selfRef
  | selfMutRef
deriving DecidableEq

/-- Modelled from the spec: a parsed function item inside an impl block
(section 4.2) of the missing parsing module; owningType is the type the
impl block is for, associated textually. -/
structure FnItem where
  owningType : String
  name : String
  receiver : Receiver
  params : List Parameter
  returnType : Option String
  doc : List String
  marker : Option Marker
deriving DecidableEq

/-- Modelled from the spec: a parsed struct declaration item (section 4.2)
of the missing parsing module. -/
structure StructItem where
  name : String
  doc : List String
  marker : Option Marker
deriving DecidableEq

/-- Modelled from the spec: a parsed trait declaration item (section 4.2)
of the missing parsing module, with all its method signatures. -/
structure TraitItem where
  name : String
  doc : List String
  sigs : List TraitSig
  marker : Option Marker
deriving DecidableEq

/-- Modelled from the spec: a parsed enum declaration item (section 4.2)
of the missing parsing module, with all its variant names. -/
structure EnumItem where
  name : String
  doc : List String
  variants : List String
  marker : Option Marker
deriving DecidableEq

/-- Modelled from the spec: one top-level item record produced by the
missing parsing module for one file (section 4.2). -/
inductive Item where
  | fn (f : FnItem)
  | str (s : StructItem)
  | tr (t : TraitItem)
  | en (e : EnumItem)
deriving DecidableEq

/-- Modelled from the spec: the classification returned for one parsed item
(section 4.3) by the missing matching module. -/
inductive Matched where
  | ignored
  | ctorDef (c : ConstructorDefinition)
  | methodDef (m : MethodDefinition)
  | docOnly (typeName : String) (doc : List String)
  | traitDef (t : TraitDefinition)
  | enumDef (e : EnumDefinition)
  | itemError (loc : String) (msg : String)
deriving DecidableEq

/-- Modelled from the spec: SelfKind derived from the written receiver form
(section 4.3) in the missing matching module. -/
def selfKindOf : Receiver → SelfKind
  | .noReceiver => .noSelf
  | .selfValue => .byValue
  | .selfRef => .byRef
  | .selfMutRef => .byMutRef

/-- Modelled from the spec: the marker matching step (section 4.3) of the
missing matching module.  A constructor marker on a function with a receiver
is an item-level error; an exported function becomes a MethodDefinition with
SelfKind derived from its receiver; a doc-marked struct contributes only its
doc; a marked trait or enum is exported whole; unmarked items are ignored;
a marker on a syntactically incompatible construct is an item-level error. -/
def matchItem : Item → Matched
  | .fn f =>
    match f.marker with
    | none => .ignored
    | some .generateInterfaceConstructor =>
      if f.receiver = .noReceiver then
        .ctorDef ⟨f.owningType, f.name, f.params, f.doc⟩
      else
        .itemError f.name "constructor marker on a method with a receiver"
    | some .generateInterface =>
      .methodDef ⟨f.owningType, f.name, f.params, f.returnType, selfKindOf f.receiver, f.doc⟩
    | some .generateInterfaceDoc =>
      .itemError f.name "doc marker is only valid on a struct declaration"
  | .str s =>
    match s.marker with
    | none => .ignored
    | some .generateInterfaceDoc => .docOnly s.name s.doc
    | some _ => .itemError s.name "marker not valid on a struct declaration"
  | .tr t =>
    match t.marker with
    | none => .ignored
    | some .generateInterface => .traitDef ⟨t.name, t.doc, t.sigs⟩
    | some _ => .itemError t.name "marker not valid on a trait declaration"
  | .en e =>
    match e.marker with
    | none => .ignored
    | some .generateInterface => .enumDef ⟨e.name, e.doc, e.variants⟩
    | some _ => .itemError e.name "marker not valid on an enum declaration"

/-- Modelled from the spec: the accumulating state of the missing model
building module (section 4.4), including the collected per-item errors
(section 7, batch reporting). -/
structure BuildState where
  classes : List ClassDefinition
  traits : List TraitDefinition
  enums : List EnumDefinition
  errors : List String
deriving DecidableEq

/-- Modelled from the spec: the initial empty model. -/
def emptyState : BuildState := ⟨[], [], [], []⟩

/-- Modelled from the spec: lazily create or look up the class entry keyed
by the owning type name and append the constructor to it (sections 3
and 4.4). -/
def addConstructor (cs : List ClassDefinition) (c : ConstructorDefinition) :
    List ClassDefinition :=
  match cs with
  | [] => [⟨c.owningType, [], [c], []⟩]
  | k :: rest =>
    if k.typeName = c.owningType then
      { k with constructors := k.constructors ++ [c] } :: rest
    else
      k :: addConstructor rest c

/-- Modelled from the spec: lazily create or look up the class entry keyed
by the owning type name and append the method to it (sections 3 and 4.4). -/
def addMethod (cs : List ClassDefinition) (m : MethodDefinition) :
    List ClassDefinition :=
  match cs with
  | [] => [⟨m.owningType, [], [], [m]⟩]
  | k :: rest =>
    if k.typeName = m.owningType then
      { k with methods := k.methods ++ [m] } :: rest
    else
      k :: addMethod rest m

/-- Modelled from the spec: lazily create or look up the class entry keyed
by the type name and set its doc from the doc-marked struct declaration
(sections 3 and 4.3). -/
def addClassDoc (cs : List ClassDefinition) (ty : String) (d : List String) :
    List ClassDefinition :=
  match cs with
  | [] => [⟨ty, d, [], []⟩]
  | k :: rest =>
    if k.typeName = ty then
      { k with doc := d } :: rest
    else
      k :: addClassDoc rest ty d

/-- Modelled from the spec: fold one classified item into the model
(section 4.4); item-level errors are collected, not fatal (section 7). -/
def stepItem (st : BuildState) (i : Item) : BuildState :=
  match matchItem i with
  | .ignored => st
  | .ctorDef c => { st with classes := addConstructor st.classes c }
  | .methodDef m => { st with classes := addMethod st.classes m }
  | .docOnly ty d => { st with classes := addClassDoc st.classes ty d }
  | .traitDef t => { st with traits := st.traits ++ [t] }
  | .enumDef e => { st with enums := st.enums ++ [e] }
  | .itemError loc msg => { st with errors := st.errors ++ [loc ++ ": " ++ msg] }

/-- Modelled from the spec: the model building pass (section 4.4) of the
missing generator module, one top-to-bottom pass over the items of the
discovered files in visitation order. -/
def buildModel (files : List (List Item)) : BuildState :=
  files.flatten.foldl stepItem emptyState

/-- Modelled from the spec: capitalize the first character of a word
(section 4.5) in the missing text formatting module. -/
def capitalizeChars : List Char → List Char
  | [] => []
  | c :: cs => c.toUpper :: cs

/-- Modelled from the spec: the CamelCase rewrite (section 4.5) of the
missing text formatting module; the identifier is split on its own
underscore word boundaries and rejoined with each word after the first
capitalized. -/
def camelChars (l : List Char) : List Char :=
  match (l.splitOn '_').filter (fun w => !w.isEmpty) with
  | [] => []
  | w :: ws => w ++ (ws.map capitalizeChars).flatten

/-- Modelled from the spec: the CamelCase rewrite on strings. -/
def toCamelCase (s : String) : String := ⟨camelChars s.data⟩

/-- Modelled from the spec: split a word at its upper-case word boundaries
(section 4.5); the accumulator holds the current word reversed. -/
def splitCaseAux : List Char → List Char → List (List Char)
  | [], acc => [acc.reverse]
  | c :: rest, acc =>
    if c.isUpper then acc.reverse :: splitCaseAux rest [c]
    else splitCaseAux rest (c :: acc)

/-- Modelled from the spec: the snake_case rewrite (section 4.5) of the
missing text formatting module; the identifier is split on its own
upper-case word boundaries and the words are lowered and rejoined with
underscores. -/
def snakeChars (l : List Char) : List Char :=
  List.intercalate ['_']
    (((splitCaseAux l []).filter (fun w => !w.isEmpty)).map (fun w => w.map Char.toLower))

/-- Modelled from the spec: the snake_case rewrite on strings. -/
def toSnakeCase (s : String) : String := ⟨snakeChars s.data⟩

/-- Modelled from the spec: rewrite one identifier per the configured
casing policy (section 4.5); Default leaves the identifier untouched. -/
def convertName : TypeCases → String → String
  | .Default, s => s
  | .CamelCase, s => toCamelCase s
  | .SnakeCase, s => toSnakeCase s

/-- Modelled from the spec: the case conversion pass on one method; only
the method name is rewritten (section 4.5). -/
def convertMethod (tc : TypeCases) (m : MethodDefinition) : MethodDefinition :=
  { m with name := convertName tc m.name }

/-- Modelled from the spec: the case conversion pass on one class; type
name, constructor factory names and parameter names are left unchanged
(section 4.5). -/
def convertClass (tc : TypeCases) (c : ClassDefinition) : ClassDefinition :=
  { c with methods := c.methods.map (convertMethod tc) }

/-- Modelled from the spec: the case conversion pass on one trait method
signature. -/
def convertSig (tc : TypeCases) (s : TraitSig) : TraitSig :=
  { s with name := convertName tc s.name }

/-- Modelled from the spec: the case conversion pass on one trait. -/
def convertTrait (tc : TypeCases) (t : TraitDefinition) : TraitDefinition :=
  { t with methods := t.methods.map (convertSig tc) }

/-- Modelled from the spec: the case conversion pass on one enum; every
variant name is rewritten (section 4.5). -/
def convertEnum (tc : TypeCases) (e : EnumDefinition) : EnumDefinition :=
  { e with variants := e.variants.map (convertName tc) }

/-- Modelled from the spec: the case conversion pass over the whole model
(section 4.5) of the missing text formatting module. -/
def convertState (tc : TypeCases) (st : BuildState) : BuildState :=
  { st with
    classes := st.classes.map (convertClass tc)
    traits := st.traits.map (convertTrait tc)
    enums := st.enums.map (convertEnum tc) }

/-- Modelled from the spec: render a stored doc comment verbatim, one
comment line per stored line (section 3). -/
def docLines (d : List String) : List String := d.map (fun l => "///" ++ l)

/-- Modelled from the spec: render a parameter list in the flapigen
underscore style shown in the crate root doc example. -/
def renderParams (ps : List Parameter) : String :=
  String.intercalate ", " (ps.map (fun p => "_: " ++ p.typeRef))

/-- Modelled from the spec: render an optional return type. -/
def renderRet : Option String → String
  | none => ""
  | some t => " -> " ++ t

/-- Modelled from the spec: the written receiver text for each SelfKind. -/
def selfParamText : SelfKind → Option String
  | .noSelf => none
  | .byValue => some "self"
  | .byRef => some "&self"
  | .byMutRef => some "&mut self"

/-- Modelled from the spec: one constructor clause line, as in the crate
root doc example. -/
def renderCtorLine (c : ConstructorDefinition) : String :=
  "    constructor " ++ c.owningType ++ "::" ++ c.factoryName ++ "(" ++
    renderParams c.params ++ ") -> " ++ c.owningType ++ ";"

/-- Modelled from the spec: one method clause line carrying the SelfKind,
parameters and return type, as in the crate root doc example. -/
def renderMethodLine (m : MethodDefinition) : String :=
  let args :=
    match selfParamText m.selfKind with
    | none => renderParams m.params
    | some s => if m.params.isEmpty then s else s ++ ", " ++ renderParams m.params
  "    fn " ++ m.owningType ++ "::" ++ m.name ++ "(" ++ args ++ ")" ++
    renderRet m.returnType ++ ";"

/-- Modelled from the spec: one constructor clause with its doc comment
immediately above it. -/
def renderCtor (c : ConstructorDefinition) : List String :=
  (docLines c.doc).map (fun l => "    " ++ l) ++ [renderCtorLine c]

/-- Modelled from the spec: one method clause with its doc comment
immediately above it. -/
def renderMethod (m : MethodDefinition) : List String :=
  (docLines m.doc).map (fun l => "    " ++ l) ++ [renderMethodLine m]

/-- Modelled from the spec: a class clause (section 4.6) in the flapigen
foreign class form of the crate root doc example: the class doc comment
immediately above the header, then every constructor clause, then every
method clause, preserving the model order of each group. -/
def renderClass (c : ClassDefinition) : List String :=
  docLines c.doc ++
    ["foreign_class!(class " ++ c.typeName ++ " \x7b",
     "    self_type " ++ c.typeName ++ ";"] ++
    (c.constructors.map renderCtor).flatten ++
    (c.methods.map renderMethod).flatten ++
    ["\x7d);"]

/-- Modelled from the spec: one trait method signature clause. -/
def renderSigLine (traitName : String) (s : TraitSig) : String :=
  "    " ++ s.name ++ " = " ++ traitName ++ "::" ++ s.name ++ "(" ++
    renderParams s.params ++ ")" ++ renderRet s.returnType ++ ";"

/-- Modelled from the spec: a trait clause (section 4.6), signatures only. -/
def renderTrait (t : TraitDefinition) : List String :=
  docLines t.doc ++
    ["foreign_interface!(interface " ++ t.name ++ " \x7b",
     "    self_type " ++ t.name ++ ";"] ++
    t.methods.map (renderSigLine t.name) ++
    ["\x7d);"]

/-- Modelled from the spec: an enum clause (section 4.6), variants only. -/
def renderEnum (e : EnumDefinition) : List String :=
  docLines e.doc ++
    ["foreign_enum!(enum " ++ e.name ++ " \x7b"] ++
    e.variants.map (fun v => "    " ++ v ++ ",") ++
    ["\x7d);"]

/-- Modelled from the spec: the classes the renderer emits; a class with no
exported constructor and no exported method is not exported (a doc-only
marker is additive, not a standalone export trigger, section 4.3). -/
def exportedClasses (st : BuildState) : List ClassDefinition :=
  st.classes.filter (fun c => !c.constructors.isEmpty || !c.methods.isEmpty)

/-- Modelled from the spec: the dialect rendering pass (section 4.6) of the
missing generator module, a pure function of the model producing the output
lines: class clauses, then trait clauses, then enum clauses, each group in
model order.  The dialect-specific foreign type name table by which the Java
and Cpp renderers differ is modelled as the identity; the two dialects share
the clause structure (section 4.6). -/
def renderModel (lang : Language) (st : BuildState) : List String :=
  ((exportedClasses st).map renderClass).flatten ++
    (st.traits.map renderTrait).flatten ++
    (st.enums.map renderEnum).flatten

/-- Modelled from the spec: the final output text, the rendered lines
joined with newlines. -/
def renderText (lang : Language) (st : BuildState) : String :=
  String.intercalate "\n" (renderModel lang st)

/-- Modelled from the spec: the engine configuration consumed by the core
(section 6). -/
structure Config where
  typeCase : TypeCases
  language : Language

/-- Modelled from the spec: the fatal error conditions (section 7) of the
missing generator module. -/
inductive RunError where
  | missingDestinationDirectory
  | nameCollision (n : String)
  | allFilesFailedToParse
deriving DecidableEq

/-- Modelled from the spec: the file system state a run observes and
mutates: whether the destination directory of the output file exists, the
per-file parse outcome of every discovered source file in visitation order
(section 4.2), and the content of the output file, if present. -/
structure World where
  destDirExists : Bool
  parsedFiles : List (Except String (List Item))
  outputFile : Option String

/-- Modelled from the spec: the successfully parsed files, in visitation
order; files that failed to parse are skipped (section 4.2). -/
def okFiles (w : World) : List (List Item) :=
  w.parsedFiles.filterMap (fun r => match r with
    | .ok items => some items
    | .error _ => none)

/-- Modelled from the spec: the fatal condition that every input file
failed to parse (section 7); vacuous when no file was discovered. -/
def allFilesFailed (w : World) : Bool :=
  !w.parsedFiles.isEmpty &&
    w.parsedFiles.all (fun r => match r with
      | .error _ => true
      | .ok _ => false)

/-- Modelled from the spec: the identifiers shared between a class and a
trait or enum (section 4.3, ambiguous target name). -/
def collidingNames (st : BuildState) : List String :=
  (st.classes.map (fun c => c.typeName)).filter
    (fun n => (st.traits.map (fun t => t.name)).contains n ||
      (st.enums.map (fun e => e.name)).contains n)

/-- Modelled from the spec: the orchestration (section 4.7) of the missing
generator module over an explicit file system state.  Fatal conditions
(missing destination directory, every file failed to parse, class name
colliding with a trait or enum name) abort the run before any output is
written and leave the world unchanged; otherwise the rendered text is
written to the output file, overwriting any previous content. -/
def runGenerator (cfg : Config) (w : World) : Option RunError × World :=
  if !w.destDirExists then
    (some .missingDestinationDirectory, w)
  else if allFilesFailed w then
    (some .allFilesFailedToParse, w)
  else
    match collidingNames (buildModel (okFiles w)) with
    | n :: _ => (some (.nameCollision n), w)
    | [] =>
      let txt := renderText cfg.language (convertState cfg.typeCase (buildModel (okFiles w)))
      (none, { w with outputFile := some txt })

/-- Embeds struct Generator of src/lib.rs: the configuration record built
in build.rs; the P type parameter stands for the AsRef Path bound. -/
structure Generator (P : Type) where
  type_case : TypeCases
  scr_folder : P
  language : Language

/-- Embeds Generator::new of src/lib.rs: a pure constructor storing the
three configuration fields; it performs no file system access and has no
failure path. -/
def Generator.new {P : Type} (type_case : TypeCases) (language : Language)
    (scr_folder : P) : Generator P :=
  ⟨type_case, scr_folder, language⟩

/-- Embeds Generator::generate_interface of src/lib.rs: it delegates to
FileGenerator (a missing module, modelled from the spec as runGenerator)
and its Rust signature returns the unit type, so the unit value is paired
with the resulting world and no run error reaches the caller. -/
def Generator.generate_interface {P I : Type} (g : Generator P)
    (interface_file_path : I) (w : World) : Unit × World :=
  ((), (runGenerator ⟨g.type_case, g.language⟩ w).2)

/-
Specification-side helper definitions, used only to state and prove the
properties below; they observe the model, they are not part of the engine.
-/

/-- The class name, if any, to which a classified item contributes. -/
def classContribName : Matched → Option String
  | .ctorDef c => some c.owningType
  | .methodDef m => some m.owningType
  | .docOnly ty _ => some ty
  | _ => none

/-- The constructors of the classes named n, in model order. -/
def ctorsOf (n : String) (cs : List ClassDefinition) : List ConstructorDefinition :=
  ((cs.filter (fun c => c.typeName = n)).map (fun c => c.constructors)).flatten

/-- The methods of the classes named n, in model order. -/
def methodsOf (n : String) (cs : List ClassDefinition) : List MethodDefinition :=
  ((cs.filter (fun c => c.typeName = n)).map (fun c => c.methods)).flatten

/-- The constructor contributions for the class named n, in item order. -/
def ctorContribs (n : String) (items : List Item) : List ConstructorDefinition :=
  items.filterMap (fun i => match matchItem i with
    | .ctorDef c => if c.owningType = n then some c else none
    | _ => none)

/-- The method contributions for the class named n, in item order. -/
def methodContribs (n : String) (items : List Item) : List MethodDefinition :=
  items.filterMap (fun i => match matchItem i with
    | .methodDef m => if m.owningType = n then some m else none
    | _ => none)

/-- The exported traits contributed by the items, in item order. -/
def traitContribs (items : List Item) : List TraitDefinition :=
  items.filterMap (fun i => match matchItem i with
    | .traitDef t => some t
    | _ => none)

/-- The exported enums contributed by the items, in item order. -/
def enumContribs (items : List Item) : List EnumDefinition :=
  items.filterMap (fun i => match matchItem i with
    | .enumDef e => some e
    | _ => none)

/-- The item-level error messages contributed by the items, in item order. -/
def errorContribs (items : List Item) : List String :=
  items.filterMap (fun i => match matchItem i with
    | .itemError loc msg => some (loc ++ ": " ++ msg)
    | _ => none)

/-- The class names contributed by the items, in item order, repetitions
included. -/
def contribNames (items : List Item) : List String :=
  items.filterMap (fun i => classContribName (matchItem i))

/-- Record a name, keeping the position of its first occurrence. -/
def pushName (ns : List String) (n : String) : List String :=
  if n ∈ ns then ns else ns ++ [n]

/-- First-encountered order: every name of the second list recorded in
order, each kept at its first occurrence. -/
def encounterFold (ns : List String) (l : List String) : List String :=
  l.foldl pushName ns

/-- An identifier made of the given words joined with underscores, the
snake_case shape of an identifier. -/
def underscoreJoin (ws : List (List Char)) : List Char :=
  List.intercalate ['_'] ws

/-- An identifier made of the given words with every word after the first
capitalized and no separator, the CamelCase shape of an identifier. -/
def camelJoin (ws : List (List Char)) : List Char :=
  match ws with
  | [] => []
  | w :: t => w ++ (t.map capitalizeChars).flatten

/-- A nonempty word of basic latin lower-case letters. -/
def lowerWord (w : List Char) : Prop :=
  w ≠ [] ∧ ∀ c ∈ w, 97 ≤ c.toNat ∧ c.toNat ≤ 122

instance (w : List Char) : Decidable (lowerWord w) :=
  inferInstanceAs (Decidable (w ≠ [] ∧ ∀ c ∈ w, 97 ≤ c.toNat ∧ c.toNat ≤ 122))

/-- The evolution of the classes component alone under one item. -/
def stepClasses (cs : List ClassDefinition) (i : Item) : List ClassDefinition :=
  match matchItem i with
  | .ctorDef c => addConstructor cs c
  | .methodDef m => addMethod cs m
  | .docOnly ty d => addClassDoc cs ty d
  | _ => cs

/-
Concrete example items, mirroring the annotated Foo example of the crate
root documentation.
-/

/-- The unmarked struct Foo declaration of the crate root doc example. -/
def fooStructItem : Item := .str ⟨"Foo", [], none⟩

/-- The constructor-marked function new(val: i32) -> Foo of the crate root
doc example. -/
def fooCtorItem : Item :=
  .fn ⟨"Foo", "new", .noReceiver, [⟨some "val", "i32"⟩], some "Foo", [],
    some .generateInterfaceConstructor⟩

/-- The export-marked method f(&self, a: i32, b: i32) -> i32 of the crate
root doc example. -/
def fooMethodItem : Item :=
  .fn ⟨"Foo", "f", .selfRef, [⟨some "a", "i32"⟩, ⟨some "b", "i32"⟩], some "i32", [],
    some .generateInterface⟩

/-- The export-marked method set_field(&mut self, v: i32) of the crate root
doc example, with its doc comment. -/
def setFieldItem : Item :=
  .fn ⟨"Foo", "set_field", .selfMutRef, [⟨some "v", "i32"⟩], none,
    ["Custom doc comment"], some .generateInterface⟩

/-- A source tree with one file holding the Foo struct, its constructor and
its method f. -/
def c1Tree : List (List Item) := [[fooStructItem, fooCtorItem, fooMethodItem]]

/-- A constructor-marked function that takes a receiver: rejected. -/
def badFnItem : FnItem :=
  ⟨"Foo", "bad_new", .selfRef, [], some "Foo", [],
    some .generateInterfaceConstructor⟩

/-- The item form of badFnItem. -/
def badCtorItem : Item := .fn badFnItem

/-- A source tree where two files contribute to the class Foo through two
separate impl blocks. -/
def c4Tree : List (List Item) := [[fooCtorItem], [fooMethodItem]]

/-- A source tree with a doc-marked struct Foo carrying the given doc lines
and an exported constructor. -/
def c7Tree (ds : List String) : List (List Item) :=
  [[.str ⟨"Foo", ds, some .generateInterfaceDoc⟩, fooCtorItem]]

/-- A world whose destination directory exists, whose files all parsed and
whose output file is absent. -/
def plainWorld (files : List (List Item)) : World := ⟨true, files.map .ok, none⟩

/-
General lemmas about the model builder.
-/

theorem ctorsOf_cons (n : String) (x : ClassDefinition) (xs : List ClassDefinition) :
    ctorsOf n (x :: xs) =
      (if x.typeName = n then x.constructors else []) ++ ctorsOf n xs := by
  by_cases h : x.typeName = n <;> simp [ctorsOf, h]

theorem methodsOf_cons (n : String) (x : ClassDefinition) (xs : List ClassDefinition) :
    methodsOf n (x :: xs) =
      (if x.typeName = n then x.methods else []) ++ methodsOf n xs := by
  by_cases h : x.typeName = n <;> simp [methodsOf, h]

theorem ctorsOf_eq_nil (n : String) (cs : List ClassDefinition)
    (h : n ∉ cs.map (fun c => c.typeName)) : ctorsOf n cs = [] := by
  induction cs with
  | nil => rfl
  | cons x xs ih =>
    simp only [List.map_cons, List.mem_cons] at h
    push_neg at h
    rw [ctorsOf_cons, if_neg (fun hx => h.1 hx.symm), List.nil_append, ih h.2]

theorem methodsOf_eq_nil (n : String) (cs : List ClassDefinition)
    (h : n ∉ cs.map (fun c => c.typeName)) : methodsOf n cs = [] := by
  induction cs with
  | nil => rfl
  | cons x xs ih =>
    simp only [List.map_cons, List.mem_cons] at h
    push_neg at h
    rw [methodsOf_cons, if_neg (fun hx => h.1 hx.symm), List.nil_append, ih h.2]

theorem foldl_stepItem_classes (items : List Item) (st : BuildState) :
    (items.foldl stepItem st).classes = items.foldl stepClasses st.classes := by
  induction items generalizing st with
  | nil => rfl
  | cons i rest ih =>
    simp only [List.foldl_cons]
    rw [ih]
    congr 1
    cases hm : matchItem i <;> simp [stepItem, stepClasses, hm]

theorem foldl_stepItem_traits (items : List Item) (st : BuildState) :
    (items.foldl stepItem st).traits = st.traits ++ traitContribs items := by
  induction items generalizing st with
  | nil => simp [traitContribs]
  | cons i rest ih =>
    simp only [List.foldl_cons]
    rw [ih, traitContribs]
    cases hm : matchItem i <;>
      simp [stepItem, hm, traitContribs, List.filterMap_cons]

theorem foldl_stepItem_enums (items : List Item) (st : BuildState) :
    (items.foldl stepItem st).enums = st.enums ++ enumContribs items := by
  induction items generalizing st with
  | nil => simp [enumContribs]
  | cons i rest ih =>
    simp only [List.foldl_cons]
    rw [ih, enumContribs]
    cases hm : matchItem i <;>
      simp [stepItem, hm, enumContribs, List.filterMap_cons]

theorem foldl_stepItem_errors (items : List Item) (st : BuildState) :
    (items.foldl stepItem st).errors = st.errors ++ errorContribs items := by
  induction items generalizing st with
  | nil => simp [errorContribs]
  | cons i rest ih =>
    simp only [List.foldl_cons]
    rw [ih, errorContribs]
    cases hm : matchItem i <;>
      simp [stepItem, hm, errorContribs, List.filterMap_cons]

theorem map_typeName_addConstructor (cs : List ClassDefinition) (c : ConstructorDefinition) :
    (addConstructor cs c).map (fun k => k.typeName) =
      pushName (cs.map (fun k => k.typeName)) c.owningType := by
  induction cs with
  | nil => simp [addConstructor, pushName]
  | cons k rest ih =>
    by_cases h : k.typeName = c.owningType
    · simp [addConstructor, pushName, h]
    · by_cases hm : c.owningType ∈ rest.map (fun k => k.typeName) <;>
        simp [addConstructor, pushName, h, hm, Ne.symm h, ih]

theorem map_typeName_addMethod (cs : List ClassDefinition) (m : MethodDefinition) :
    (addMethod cs m).map (fun k => k.typeName) =
      pushName (cs.map (fun k => k.typeName)) m.owningType := by
  induction cs with
  | nil => simp [addMethod, pushName]
  | cons k rest ih =>
    by_cases h : k.typeName = m.owningType
    · simp [addMethod, pushName, h]
    · by_cases hm : m.owningType ∈ rest.map (fun k => k.typeName) <;>
        simp [addMethod, pushName, h, hm, Ne.symm h, ih]

theorem map_typeName_addClassDoc (cs : List ClassDefinition) (ty : String) (d : List String) :
    (addClassDoc cs ty d).map (fun k => k.typeName) =
      pushName (cs.map (fun k => k.typeName)) ty := by
  induction cs with
  | nil => simp [addClassDoc, pushName]
  | cons k rest ih =>
    by_cases h : k.typeName = ty
    · simp [addClassDoc, pushName, h]
    · by_cases hm : ty ∈ rest.map (fun k => k.typeName) <;>
        simp [addClassDoc, pushName, h, hm, Ne.symm h, ih]

theorem map_typeName_stepClasses (cs : List ClassDefinition) (i : Item) :
    (stepClasses cs i).map (fun k => k.typeName) =
      match classContribName (matchItem i) with
      | some n => pushName (cs.map (fun k => k.typeName)) n
      | none => cs.map (fun k => k.typeName) := by
  cases hm : matchItem i <;>
    simp [stepClasses, hm, classContribName, map_typeName_addConstructor,
      map_typeName_addMethod, map_typeName_addClassDoc]

theorem contribNames_cons (i : Item) (rest : List Item) :
    contribNames (i :: rest) =
      match classContribName (matchItem i) with
      | some n => n :: contribNames rest
      | none => contribNames rest := by
  rw [contribNames, List.filterMap_cons]
  cases classContribName (matchItem i) <;> simp [contribNames]

theorem map_typeName_foldl_stepClasses (items : List Item) (cs : List ClassDefinition) :
    (items.foldl stepClasses cs).map (fun k => k.typeName) =
      encounterFold (cs.map (fun k => k.typeName)) (contribNames items) := by
  induction items generalizing cs with
  | nil => simp [encounterFold, contribNames]
  | cons i rest ih =>
    simp only [List.foldl_cons]
    rw [ih, contribNames_cons]
    have hs := map_typeName_stepClasses cs i
    cases hn : classContribName (matchItem i) with
    | none =>
      rw [hn] at hs
      rw [hs]
    | some n =>
      rw [hn] at hs
      rw [hs]
      simp [encounterFold]

theorem nodup_pushName (ns : List String) (n : String) (h : ns.Nodup) :
    (pushName ns n).Nodup := by
  by_cases hm : n ∈ ns
  · simpa [pushName, hm] using h
  · simp [pushName, hm, List.nodup_append, h]

theorem nodup_encounterFold (l : List String) (ns : List String) (h : ns.Nodup) :
    (encounterFold ns l).Nodup := by
  induction l generalizing ns with
  | nil => exact h
  | cons x xs ih =>
    rw [encounterFold, List.foldl_cons]
    exact ih _ (nodup_pushName ns x h)

theorem nodup_buildModel_typeNames (files : List (List Item)) :
    ((buildModel files).classes.map (fun k => k.typeName)).Nodup := by
  rw [buildModel, foldl_stepItem_classes]
  rw [map_typeName_foldl_stepClasses]
  exact nodup_encounterFold _ _ (by simp [emptyState])

theorem nodup_stepClasses (cs : List ClassDefinition) (i : Item)
    (hnd : (cs.map (fun k => k.typeName)).Nodup) :
    ((stepClasses cs i).map (fun k => k.typeName)).Nodup := by
  have hs := map_typeName_stepClasses cs i
  cases hn : classContribName (matchItem i) with
  | none => rw [hn] at hs; rw [hs]; exact hnd
  | some n => rw [hn] at hs; rw [hs]; exact nodup_pushName _ _ hnd

theorem ctorsOf_addConstructor (n : String) (cs : List ClassDefinition)
    (c : ConstructorDefinition) (hnd : (cs.map (fun k => k.typeName)).Nodup) :
    ctorsOf n (addConstructor cs c) =
      ctorsOf n cs ++ (if c.owningType = n then [c] else []) := by
  induction cs with
  | nil =>
    by_cases h : c.owningType = n <;>
      simp [addConstructor, ctorsOf_cons, ctorsOf, h]
  | cons k rest ih =>
    simp only [List.map_cons, List.nodup_cons] at hnd
    by_cases h : k.typeName = c.owningType
    · by_cases hn : k.typeName = n
      · have hrest : ctorsOf n rest = [] :=
          ctorsOf_eq_nil n rest (by rw [← hn]; exact hnd.1)
        have hcn : c.owningType = n := h.symm.trans hn
        simp [addConstructor, h, hn, ctorsOf_cons, hrest, hcn]
      · have hcn : ¬(c.owningType = n) := fun hc => hn (h.trans hc)
        simp [addConstructor, h, hn, ctorsOf_cons, hcn]
    · have hred : addConstructor (k :: rest) c = k :: addConstructor rest c := by
        simp [addConstructor, h]
      rw [hred, ctorsOf_cons, ctorsOf_cons, ih hnd.2, List.append_assoc]

theorem ctorsOf_addMethod (n : String) (cs : List ClassDefinition)
    (m : MethodDefinition) :
    ctorsOf n (addMethod cs m) = ctorsOf n cs := by
  induction cs with
  | nil => simp [addMethod, ctorsOf_cons, ctorsOf]
  | cons k rest ih =>
    by_cases h : k.typeName = m.owningType
    · simp [addMethod, h, ctorsOf_cons]
    · have hred : addMethod (k :: rest) m = k :: addMethod rest m := by
        simp [addMethod, h]
      rw [hred, ctorsOf_cons, ctorsOf_cons, ih]

theorem ctorsOf_addClassDoc (n : String) (cs : List ClassDefinition)
    (ty : String) (d : List String) :
    ctorsOf n (addClassDoc cs ty d) = ctorsOf n cs := by
  induction cs with
  | nil => by_cases h : ty = n <;> simp [addClassDoc, ctorsOf_cons, ctorsOf, h]
  | cons k rest ih =>
    by_cases h : k.typeName = ty
    · simp [addClassDoc, h, ctorsOf_cons]
    · have hred : addClassDoc (k :: rest) ty d = k :: addClassDoc rest ty d := by
        simp [addClassDoc, h]
      rw [hred, ctorsOf_cons, ctorsOf_cons, ih]

theorem methodsOf_addMethod (n : String) (cs : List ClassDefinition)
    (m : MethodDefinition) (hnd : (cs.map (fun k => k.typeName)).Nodup) :
    methodsOf n (addMethod cs m) =
      methodsOf n cs ++ (if m.owningType = n then [m] else []) := by
  induction cs with
  | nil =>
    by_cases h : m.owningType = n <;>
      simp [addMethod, methodsOf_cons, methodsOf, h]
  | cons k rest ih =>
    simp only [List.map_cons, List.nodup_cons] at hnd
    by_cases h : k.typeName = m.owningType
    · by_cases hn : k.typeName = n
      · have hrest : methodsOf n rest = [] :=
          methodsOf_eq_nil n rest (by rw [← hn]; exact hnd.1)
        have hcn : m.owningType = n := h.symm.trans hn
        simp [addMethod, h, hn, methodsOf_cons, hrest, hcn]
      · have hcn : ¬(m.owningType = n) := fun hc => hn (h.trans hc)
        simp [addMethod, h, hn, methodsOf_cons, hcn]
    · have hred : addMethod (k :: rest) m = k :: addMethod rest m := by
        simp [addMethod, h]
      rw [hred, methodsOf_cons, methodsOf_cons, ih hnd.2, List.append_assoc]

theorem methodsOf_addConstructor (n : String) (cs : List ClassDefinition)
    (c : ConstructorDefinition) :
    methodsOf n (addConstructor cs c) = methodsOf n cs := by
  induction cs with
  | nil => simp [addConstructor, methodsOf_cons, methodsOf]
  | cons k rest ih =>
    by_cases h : k.typeName = c.owningType
    · simp [addConstructor, h, methodsOf_cons]
    · have hred : addConstructor (k :: rest) c = k :: addConstructor rest c := by
        simp [addConstructor, h]
      rw [hred, methodsOf_cons, methodsOf_cons, ih]

theorem methodsOf_addClassDoc (n : String) (cs : List ClassDefinition)
    (ty : String) (d : List String) :
    methodsOf n (addClassDoc cs ty d) = methodsOf n cs := by
  induction cs with
  | nil => by_cases h : ty = n <;> simp [addClassDoc, methodsOf_cons, methodsOf, h]
  | cons k rest ih =>
    by_cases h : k.typeName = ty
    · simp [addClassDoc, h, methodsOf_cons]
    · have hred : addClassDoc (k :: rest) ty d = k :: addClassDoc rest ty d := by
        simp [addClassDoc, h]
      rw [hred, methodsOf_cons, methodsOf_cons, ih]

theorem ctorContribs_cons (n : String) (i : Item) (rest : List Item) :
    ctorContribs n (i :: rest) =
      (match matchItem i with
        | .ctorDef c => if c.owningType = n then [c] else []
        | _ => []) ++ ctorContribs n rest := by
  simp only [ctorContribs, List.filterMap_cons]
  cases hm : matchItem i with
  | ctorDef c => by_cases h : c.owningType = n <;> simp [h]
  | ignored => simp
  | methodDef m => simp
  | docOnly ty d => simp
  | traitDef t => simp
  | enumDef e => simp
  | itemError l s => simp

theorem methodContribs_cons (n : String) (i : Item) (rest : List Item) :
    methodContribs n (i :: rest) =
      (match matchItem i with
        | .methodDef m => if m.owningType = n then [m] else []
        | _ => []) ++ methodContribs n rest := by
  simp only [methodContribs, List.filterMap_cons]
  cases hm : matchItem i with
  | methodDef m => by_cases h : m.owningType = n <;> simp [h]
  | ignored => simp
  | ctorDef c => simp
  | docOnly ty d => simp
  | traitDef t => simp
  | enumDef e => simp
  | itemError l s => simp

theorem ctorsOf_foldl_stepClasses (n : String) (items : List Item)
    (cs : List ClassDefinition) (hnd : (cs.map (fun k => k.typeName)).Nodup) :
    ctorsOf n (items.foldl stepClasses cs) = ctorsOf n cs ++ ctorContribs n items := by
  induction items generalizing cs with
  | nil => simp [ctorContribs]
  | cons i rest ih =>
    simp only [List.foldl_cons]
    rw [ih _ (nodup_stepClasses cs i hnd), ctorContribs_cons]
    have hstep : ctorsOf n (stepClasses cs i) =
        ctorsOf n cs ++
          (match matchItem i with
            | .ctorDef c => if c.owningType = n then [c] else []
            | _ => []) := by
      cases hm : matchItem i <;>
        simp [stepClasses, hm, ctorsOf_addConstructor n cs _ hnd,
          ctorsOf_addMethod, ctorsOf_addClassDoc]
    rw [hstep, List.append_assoc]

theorem methodsOf_foldl_stepClasses (n : String) (items : List Item)
    (cs : List ClassDefinition) (hnd : (cs.map (fun k => k.typeName)).Nodup) :
    methodsOf n (items.foldl stepClasses cs) =
      methodsOf n cs ++ methodContribs n items := by
  induction items generalizing cs with
  | nil => simp [methodContribs]
  | cons i rest ih =>
    simp only [List.foldl_cons]
    rw [ih _ (nodup_stepClasses cs i hnd), methodContribs_cons]
    have hstep : methodsOf n (stepClasses cs i) =
        methodsOf n cs ++
          (match matchItem i with
            | .methodDef m => if m.owningType = n then [m] else []
            | _ => []) := by
      cases hm : matchItem i <;>
        simp [stepClasses, hm, methodsOf_addMethod n cs _ hnd,
          methodsOf_addConstructor, methodsOf_addClassDoc]
    rw [hstep, List.append_assoc]

theorem ctorsOf_buildModel (n : String) (files : List (List Item)) :
    ctorsOf n (buildModel files).classes = ctorContribs n files.flatten := by
  rw [buildModel, foldl_stepItem_classes]
  have h := ctorsOf_foldl_stepClasses n files.flatten emptyState.classes (by simp [emptyState])
  simpa [emptyState, ctorsOf] using h

theorem methodsOf_buildModel (n : String) (files : List (List Item)) :
    methodsOf n (buildModel files).classes = methodContribs n files.flatten := by
  rw [buildModel, foldl_stepItem_classes]
  have h := methodsOf_foldl_stepClasses n files.flatten emptyState.classes (by simp [emptyState])
  simpa [emptyState, methodsOf] using h

/-
Lemmas about the case conversion of identifiers.
-/

theorem charToNat_ofNat_small (m : Nat) (h2 : m ≤ 122) : (Char.ofNat m).toNat = m := by
  rw [Char.ofNat, dif_pos (Or.inl (by omega))]
  show (BitVec.ofNatLt m _).toNat = m
  simp [BitVec.toNat_ofNatLt]

theorem charIsUpper_iff (c : Char) : c.isUpper = true ↔ 65 ≤ c.toNat ∧ c.toNat ≤ 90 := by
  simp [Char.isUpper, UInt32.le_def, BitVec.le_def, Char.toNat]
  constructor
  · rintro ⟨h1, h2⟩; exact ⟨h1, h2⟩
  · rintro ⟨h1, h2⟩; exact ⟨h1, h2⟩

theorem charIsUpper_toUpper (c : Char) (h1 : 97 ≤ c.toNat) (h2 : c.toNat ≤ 122) :
    c.toUpper.isUpper = true := by
  rw [Char.toUpper, if_pos ⟨h1, h2⟩]
  rw [charIsUpper_iff]
  rw [charToNat_ofNat_small (c.toNat - 32) (by omega)]
  omega

theorem charIsUpper_false_of_lower (c : Char) (h1 : 97 ≤ c.toNat) (h2 : c.toNat ≤ 122) :
    c.isUpper = false := by
  by_cases h : c.isUpper = true
  · have := (charIsUpper_iff c).mp h
    omega
  · simpa using h

theorem charToLower_of_lower (c : Char) (h1 : 97 ≤ c.toNat) (h2 : c.toNat ≤ 122) :
    c.toLower = c := by
  rw [Char.toLower, if_neg (by omega)]

theorem charToLower_toUpper (c : Char) (h1 : 97 ≤ c.toNat) (h2 : c.toNat ≤ 122) :
    c.toUpper.toLower = c := by
  rw [Char.toUpper, if_pos ⟨h1, h2⟩]
  rw [Char.toLower,
    if_pos ⟨by rw [charToNat_ofNat_small] <;> omega, by rw [charToNat_ofNat_small] <;> omega⟩]
  rw [charToNat_ofNat_small (c.toNat - 32) (by omega)]
  have h : c.toNat - 32 + 32 = c.toNat := by omega
  rw [h, Char.ofNat_toNat]

theorem splitCaseAux_append_lower (l rest acc : List Char)
    (h : ∀ c ∈ l, c.isUpper = false) :
    splitCaseAux (l ++ rest) acc = splitCaseAux rest (l.reverse ++ acc) := by
  induction l generalizing acc with
  | nil => simp
  | cons c r ih =>
    have hc := h c (by simp)
    simp only [List.cons_append, splitCaseAux, hc]
    rw [if_neg (by simp [hc])]
    show splitCaseAux (r ++ rest) (c :: acc) = splitCaseAux rest ((c :: r).reverse ++ acc)
    rw [ih _ (fun x hx => h x (by simp [hx]))]
    simp

theorem splitCaseAux_capWords (t : List (List Char)) (acc : List Char)
    (h : ∀ w ∈ t, lowerWord w) :
    splitCaseAux ((t.map capitalizeChars).flatten) acc =
      acc.reverse :: t.map capitalizeChars := by
  induction t generalizing acc with
  | nil => simp [splitCaseAux]
  | cons w t ih =>
    obtain ⟨hne, hchars⟩ := h w (by simp)
    obtain ⟨c, cs, rfl⟩ := List.exists_cons_of_ne_nil hne
    have hc := hchars c (by simp)
    simp only [List.map_cons, List.flatten_cons, capitalizeChars, List.cons_append]
    simp only [splitCaseAux]
    rw [if_pos (charIsUpper_toUpper c hc.1 hc.2)]
    rw [splitCaseAux_append_lower cs _ _
      (fun x hx => charIsUpper_false_of_lower x (hchars x (by simp [hx])).1 (hchars x (by simp [hx])).2)]
    rw [ih _ (fun x hx => h x (by simp [hx]))]
    simp

theorem mapToLower_of_lowerWord (w : List Char) (h : ∀ c ∈ w, 97 ≤ c.toNat ∧ c.toNat ≤ 122) :
    w.map Char.toLower = w := by
  induction w with
  | nil => rfl
  | cons c r ih =>
    have hc := h c (by simp)
    simp only [List.map_cons, charToLower_of_lower c hc.1 hc.2,
      ih (fun x hx => h x (by simp [hx]))]

theorem mapToLower_capitalize (w : List Char) (hw : lowerWord w) :
    (capitalizeChars w).map Char.toLower = w := by
  obtain ⟨hne, hchars⟩ := hw
  obtain ⟨c, cs, rfl⟩ := List.exists_cons_of_ne_nil hne
  have hc := hchars c (by simp)
  simp only [capitalizeChars, List.map_cons, charToLower_toUpper c hc.1 hc.2,
    mapToLower_of_lowerWord cs (fun x hx => hchars x (by simp [hx]))]

theorem camelChars_underscoreJoin (ws : List (List Char)) (hne : ws ≠ [])
    (hw : ∀ w ∈ ws, w ≠ [] ∧ '_' ∉ w) :
    camelChars (underscoreJoin ws) = camelJoin ws := by
  have hsplit : (underscoreJoin ws).splitOn '_' = ws :=
    List.splitOn_intercalate ws '_' (fun l hl => (hw l hl).2) hne
  have hfilter : ws.filter (fun w => !w.isEmpty) = ws :=
    List.filter_eq_self.mpr (fun w hwm => by simpa using (hw w hwm).1)
  rw [camelChars, hsplit, hfilter]
  obtain ⟨w, t, rfl⟩ := List.exists_cons_of_ne_nil hne
  rfl

theorem snakeChars_camelJoin (ws : List (List Char)) (hne : ws ≠ [])
    (hw : ∀ w ∈ ws, lowerWord w) :
    snakeChars (camelJoin ws) = underscoreJoin ws := by
  obtain ⟨w, t, rfl⟩ := List.exists_cons_of_ne_nil hne
  obtain ⟨hwne, hwchars⟩ := hw w (by simp)
  rw [camelJoin, snakeChars]
  rw [splitCaseAux_append_lower w _ []
    (fun x hx => charIsUpper_false_of_lower x (hwchars x hx).1 (hwchars x hx).2)]
  rw [List.append_nil, splitCaseAux_capWords t _ (fun x hx => hw x (by simp [hx]))]
  rw [List.reverse_reverse]
  have hfilter : (w :: t.map capitalizeChars).filter (fun x => !x.isEmpty) =
      w :: t.map capitalizeChars := by
    refine List.filter_eq_self.mpr ?_
    intro x hx
    rcases List.mem_cons.mp hx with hx | hx
    · subst hx
      simpa using hwne
    · obtain ⟨y, hy, rfl⟩ := List.mem_map.mp hx
      obtain ⟨hyne, _⟩ := hw y (by simp [hy])
      obtain ⟨c, cs, rfl⟩ := List.exists_cons_of_ne_nil hyne
      simp [capitalizeChars]
  rw [hfilter]
  have hmap : (w :: t.map capitalizeChars).map (fun x => x.map Char.toLower) = w :: t := by
    simp only [List.map_cons, List.map_map]
    rw [mapToLower_of_lowerWord w hwchars]
    congr 1
    have hcong : ∀ y ∈ t, ((fun x => List.map Char.toLower x) ∘ capitalizeChars) y = y := by
      intro y hy
      exact mapToLower_capitalize y (hw y (by simp [hy]))
    rw [List.map_congr_left hcong]
    simp
  rw [hmap]
  rfl

theorem convertState_default (st : BuildState) : convertState TypeCases.Default st = st := by
  have hm : convertMethod TypeCases.Default = id := funext fun m => rfl
  have hs : convertSig TypeCases.Default = id := funext fun s => rfl
  have hn : convertName TypeCases.Default = id := funext fun s => rfl
  have hc : convertClass TypeCases.Default = id := by
    funext c
    show { c with methods := c.methods.map (convertMethod TypeCases.Default) } = c
    rw [hm, List.map_id]
  have ht : convertTrait TypeCases.Default = id := by
    funext t
    show { t with methods := t.methods.map (convertSig TypeCases.Default) } = t
    rw [hs, List.map_id]
  have he : convertEnum TypeCases.Default = id := by
    funext e
    show { e with variants := e.variants.map (convertName TypeCases.Default) } = e
    rw [hn, List.map_id]
  show { st with
      classes := st.classes.map (convertClass TypeCases.Default)
      traits := st.traits.map (convertTrait TypeCases.Default)
      enums := st.enums.map (convertEnum TypeCases.Default) } = st
  rw [hc, ht, he, List.map_id, List.map_id, List.map_id]

theorem convertState_typeNames (tc : TypeCases) (st : BuildState) :
    (convertState tc st).classes.map (fun c => c.typeName) =
      st.classes.map (fun c => c.typeName) := by
  show (st.classes.map (convertClass tc)).map (fun c => c.typeName) = _
  rw [List.map_map]
  rfl

theorem convertState_constructors (tc : TypeCases) (st : BuildState) :
    (convertState tc st).classes.map (fun c => c.constructors) =
      st.classes.map (fun c => c.constructors) := by
  show (st.classes.map (convertClass tc)).map (fun c => c.constructors) = _
  rw [List.map_map]
  rfl

theorem convertState_method_names (tc : TypeCases) (st : BuildState) :
    (convertState tc st).classes.map (fun c => c.methods.map (fun m => m.name)) =
      st.classes.map (fun c => c.methods.map (fun m => convertName tc m.name)) := by
  show (st.classes.map (convertClass tc)).map (fun c => c.methods.map (fun m => m.name)) = _
  rw [List.map_map]
  refine List.map_congr_left ?_
  intro c hc
  show (c.methods.map (convertMethod tc)).map (fun m => m.name) = _
  rw [List.map_map]
  rfl

theorem convertState_method_shapes (tc : TypeCases) (st : BuildState) :
    (convertState tc st).classes.map
        (fun c => c.methods.map (fun m => (m.owningType, m.params, m.returnType, m.selfKind))) =
      st.classes.map
        (fun c => c.methods.map (fun m => (m.owningType, m.params, m.returnType, m.selfKind))) := by
  show (st.classes.map (convertClass tc)).map
      (fun c => c.methods.map (fun m => (m.owningType, m.params, m.returnType, m.selfKind))) = _
  rw [List.map_map]
  refine List.map_congr_left ?_
  intro c hc
  show (c.methods.map (convertMethod tc)).map
      (fun m => (m.owningType, m.params, m.returnType, m.selfKind)) = _
  rw [List.map_map]
  rfl

theorem convertState_trait_names (tc : TypeCases) (st : BuildState) :
    (convertState tc st).traits.map (fun t => t.name) = st.traits.map (fun t => t.name) := by
  show (st.traits.map (convertTrait tc)).map (fun t => t.name) = _
  rw [List.map_map]
  rfl

theorem convertState_trait_sig_names (tc : TypeCases) (st : BuildState) :
    (convertState tc st).traits.map (fun t => t.methods.map (fun s => s.name)) =
      st.traits.map (fun t => t.methods.map (fun s => convertName tc s.name)) := by
  show (st.traits.map (convertTrait tc)).map (fun t => t.methods.map (fun s => s.name)) = _
  rw [List.map_map]
  refine List.map_congr_left ?_
  intro t ht
  show (t.methods.map (convertSig tc)).map (fun s => s.name) = _
  rw [List.map_map]
  rfl

theorem convertState_enum_names (tc : TypeCases) (st : BuildState) :
    (convertState tc st).enums.map (fun e => e.name) = st.enums.map (fun e => e.name) := by
  show (st.enums.map (convertEnum tc)).map (fun e => e.name) = _
  rw [List.map_map]
  rfl

theorem convertState_enum_variants (tc : TypeCases) (st : BuildState) :
    (convertState tc st).enums.map (fun e => e.variants) =
      st.enums.map (fun e => e.variants.map (convertName tc)) := by
  show (st.enums.map (convertEnum tc)).map (fun e => e.variants) = _
  rw [List.map_map]
  rfl

/-
The claims.
-/

/-- C1: for a source tree containing a type Foo whose impl block carries
the constructor marker on new(val: i32) -> Foo and the export marker on
f(&self, a: i32, b: i32) -> i32, the built model holds exactly one
ClassDefinition for Foo, with exactly one ConstructorDefinition (factory
new, one parameter) and exactly one MethodDefinition (name f, SelfKind
by-immutable-reference, two parameters, i32 return type), and nothing
else. -/
theorem spec_c1_foo_class_model :
    (buildModel c1Tree).classes =
      [⟨"Foo", [],
        [⟨"Foo", "new", [⟨some "val", "i32"⟩], []⟩],
        [⟨"Foo", "f", [⟨some "a", "i32"⟩, ⟨some "b", "i32"⟩], some "i32", SelfKind.byRef, []⟩]⟩] ∧
    (buildModel c1Tree).traits = [] ∧
    (buildModel c1Tree).enums = [] ∧
    (buildModel c1Tree).errors = [] := by
  refine ⟨?_, rfl, rfl, rfl⟩
  rfl

/-- C2: the case conversion pass rewrites exactly the method names, the
trait method signature names and the enum variant names by the configured
policy, leaving type names, constructor factory names and parameters, method
parameters and shapes, trait names and enum names unchanged; the Default
policy leaves the whole model byte-identical; the CamelCase rewrite of an
identifier made of underscore-separated lower-case words removes the
underscores and capitalizes each word after the first; and the SnakeCase
rewrite is its inverse, restoring the underscore-separated form. -/
theorem spec_c2_casing_policy :
    (∀ st : BuildState, convertState TypeCases.Default st = st) ∧
    (∀ (tc : TypeCases) (st : BuildState),
      (convertState tc st).classes.map (fun c => c.typeName) =
        st.classes.map (fun c => c.typeName)) ∧
    (∀ (tc : TypeCases) (st : BuildState),
      (convertState tc st).classes.map (fun c => c.constructors) =
        st.classes.map (fun c => c.constructors)) ∧
    (∀ (tc : TypeCases) (st : BuildState),
      (convertState tc st).classes.map (fun c => c.methods.map (fun m => m.name)) =
        st.classes.map (fun c => c.methods.map (fun m => convertName tc m.name))) ∧
    (∀ (tc : TypeCases) (st : BuildState),
      (convertState tc st).classes.map
          (fun c => c.methods.map (fun m => (m.owningType, m.params, m.returnType, m.selfKind))) =
        st.classes.map
          (fun c => c.methods.map (fun m => (m.owningType, m.params, m.returnType, m.selfKind)))) ∧
    (∀ (tc : TypeCases) (st : BuildState),
      (convertState tc st).traits.map (fun t => t.name) = st.traits.map (fun t => t.name)) ∧
    (∀ (tc : TypeCases) (st : BuildState),
      (convertState tc st).traits.map (fun t => t.methods.map (fun s => s.name)) =
        st.traits.map (fun t => t.methods.map (fun s => convertName tc s.name))) ∧
    (∀ (tc : TypeCases) (st : BuildState),
      (convertState tc st).enums.map (fun e => e.name) = st.enums.map (fun e => e.name)) ∧
    (∀ (tc : TypeCases) (st : BuildState),
      (convertState tc st).enums.map (fun e => e.variants) =
        st.enums.map (fun e => e.variants.map (convertName tc))) ∧
    (∀ ws : List (List Char), ws ≠ [] → (∀ w ∈ ws, lowerWord w) →
      toCamelCase ⟨underscoreJoin ws⟩ = ⟨camelJoin ws⟩ ∧
      toSnakeCase ⟨camelJoin ws⟩ = ⟨underscoreJoin ws⟩) := by
  refine ⟨convertState_default, convertState_typeNames, convertState_constructors,
    convertState_method_names, convertState_method_shapes, convertState_trait_names,
    convertState_trait_sig_names, convertState_enum_names, convertState_enum_variants, ?_⟩
  intro ws hne hw
  constructor
  · exact congrArg String.mk
      (camelChars_underscoreJoin ws hne
        (fun w hwm => ⟨(hw w hwm).1,
          fun hmem => absurd ((hw w hwm).2 '_' hmem).1 (by decide)⟩))
  · exact congrArg String.mk (snakeChars_camelJoin ws hne hw)

/-- Witness for C2 at the identifier set_field of the crate root example. -/
theorem spec_c2_casing_policy_witness :
    toCamelCase "set_field" = "setField" ∧ toSnakeCase "setField" = "set_field" := by
  have h := spec_c2_casing_policy.2.2.2.2.2.2.2.2.2
    [['s','e','t'], ['f','i','e','l','d']] (by decide) (by decide)
  exact ⟨h.1, h.2⟩

theorem allFilesFailed_setOutput (w : World) (x : Option String) :
    allFilesFailed { w with outputFile := x } = allFilesFailed w := rfl

theorem okFiles_setOutput (w : World) (x : Option String) :
    okFiles { w with outputFile := x } = okFiles w := rfl

theorem allFilesFailed_mk (b : Bool) (x : Option String) (w : World) :
    allFilesFailed ⟨b, w.parsedFiles, x⟩ = allFilesFailed w := rfl

theorem okFiles_mk (b : Bool) (x : Option String) (w : World) :
    okFiles ⟨b, w.parsedFiles, x⟩ = okFiles w := rfl

/-- C3: the engine is deterministic: a second run over the same unchanged
source tree and configuration takes the same branch and produces the same
output text, and rendering is a pure function of the model, so identical
models render to byte-identical text. -/
theorem spec_c3_deterministic :
    (∀ (cfg : Config) (w : World),
      (runGenerator cfg (runGenerator cfg w).2).1 = (runGenerator cfg w).1 ∧
      (runGenerator cfg (runGenerator cfg w).2).2.outputFile =
        (runGenerator cfg w).2.outputFile) ∧
    (∀ (lang : Language) (st₁ st₂ : BuildState),
      st₁ = st₂ → renderText lang st₁ = renderText lang st₂) := by
  constructor
  · intro cfg w
    by_cases hd : w.destDirExists = true
    · by_cases hf : allFilesFailed w = true
      · have h1 : runGenerator cfg w = (some RunError.allFilesFailedToParse, w) := by
          simp [runGenerator, hd, hf]
        simp [h1]
      · cases hcol : collidingNames (buildModel (okFiles w)) with
        | cons n rest =>
          have h1 : runGenerator cfg w = (some (RunError.nameCollision n), w) := by
            simp [runGenerator, hd, hf, hcol]
          simp [h1]
        | nil =>
          have h1 : runGenerator cfg w =
              (none, { w with outputFile := some (renderText cfg.language
                (convertState cfg.typeCase (buildModel (okFiles w)))) }) := by
            simp [runGenerator, hd, hf, hcol]
          have h2 : runGenerator cfg { w with outputFile := some (renderText cfg.language
                (convertState cfg.typeCase (buildModel (okFiles w)))) } =
              (none, { w with outputFile := some (renderText cfg.language
                (convertState cfg.typeCase (buildModel (okFiles w)))) }) := by
            simp [runGenerator, hd, hf, hcol, allFilesFailed_setOutput, okFiles_setOutput,
              allFilesFailed_mk, okFiles_mk]
          rw [h1]
          simp [h2]
    · have hd' : w.destDirExists = false := by
        cases hcase : w.destDirExists
        · rfl
        · exact absurd hcase hd
      have h1 : runGenerator cfg w = (some RunError.missingDestinationDirectory, w) := by
        simp [runGenerator, hd']
      simp [h1]
  · intro lang st₁ st₂ h
    rw [h]

/-- Witness for C3 on the Foo tree under the Java dialect. -/
theorem spec_c3_deterministic_witness :
    (runGenerator ⟨TypeCases.Default, Language.Java⟩
        (runGenerator ⟨TypeCases.Default, Language.Java⟩ (plainWorld c1Tree)).2).2.outputFile =
      (runGenerator ⟨TypeCases.Default, Language.Java⟩ (plainWorld c1Tree)).2.outputFile ∧
    renderText Language.Java emptyState = renderText Language.Java emptyState :=
  ⟨(spec_c3_deterministic.1 ⟨TypeCases.Default, Language.Java⟩ (plainWorld c1Tree)).2,
    spec_c3_deterministic.2 Language.Java emptyState emptyState rfl⟩

theorem length_filter_singleton {α β : Type} [DecidableEq β] (l : List α) (f : α → β)
    (n : β) (h : (l.map f).Nodup) :
    (l.filter (fun x => f x = n)).length ≤ 1 := by
  induction l with
  | nil => simp
  | cons x xs ih =>
    simp only [List.map_cons, List.nodup_cons] at h
    by_cases hx : f x = n
    · have hnil : xs.filter (fun x => f x = n) = [] := by
        refine List.filter_eq_nil_iff.mpr ?_
        intro y hy
        simp only [decide_eq_true_eq]
        intro hyn
        exact h.1 (List.mem_map.mpr ⟨y, hy, (hyn.trans hx.symm)⟩)
      simp [List.filter_cons, hx, hnil]
    · simpa [List.filter_cons, hx] using ih h.2

/-- C4: contributions to one type name merge into at most one class entry;
the constructors and the methods recorded under the name are exactly the
constructor and method contributions of all files, in first-encountered
order across the flattened file sequence; and as soon as the name has one
contribution, exactly one class entry keyed by it exists. -/
theorem spec_c4_merge :
    ∀ (files : List (List Item)) (n : String),
      ((buildModel files).classes.filter (fun c => c.typeName = n)).length ≤ 1 ∧
      ctorsOf n (buildModel files).classes = ctorContribs n files.flatten ∧
      methodsOf n (buildModel files).classes = methodContribs n files.flatten ∧
      ((ctorContribs n files.flatten ≠ [] ∨ methodContribs n files.flatten ≠ []) →
        ((buildModel files).classes.filter (fun c => c.typeName = n)).length = 1) := by
  intro files n
  have hnd := nodup_buildModel_typeNames files
  have hle : ((buildModel files).classes.filter (fun c => c.typeName = n)).length ≤ 1 :=
    length_filter_singleton (buildModel files).classes (fun c => c.typeName) n hnd
  have hctors := ctorsOf_buildModel n files
  have hmethods := methodsOf_buildModel n files
  refine ⟨hle, hctors, hmethods, ?_⟩
  intro hcontrib
  by_cases hfil : (buildModel files).classes.filter (fun c => c.typeName = n) = []
  · exfalso
    have hc0 : ctorsOf n (buildModel files).classes = [] := by
      rw [ctorsOf, hfil]
      rfl
    have hm0 : methodsOf n (buildModel files).classes = [] := by
      rw [methodsOf, hfil]
      rfl
    rcases hcontrib with hc | hm
    · exact hc (hctors.symm.trans hc0)
    · exact hm (hmethods.symm.trans hm0)
  · have hpos : 0 < ((buildModel files).classes.filter (fun c => c.typeName = n)).length :=
      List.length_pos.mpr hfil
    omega

/-- Witness for C4 on a tree whose two files contribute to Foo through two
impl blocks. -/
theorem spec_c4_merge_witness :
    ((buildModel c4Tree).classes.filter (fun c => c.typeName = "Foo")).length = 1 :=
  (spec_c4_merge c4Tree "Foo").2.2.2 (Or.inl (by decide))

/-- C5: a constructor marker on a function item that takes a receiver is
rejected with an item-level error; the classes, traits and enums of the
built model are exactly those built without the offending item, so it
contributes neither a constructor nor a method and the remaining items of
the file are still processed; and the item error is collected in the
model's error list. -/
theorem spec_c5_ctor_with_receiver :
    ∀ (f : FnItem) (pre post : List Item),
      f.marker = some Marker.generateInterfaceConstructor →
      f.receiver ≠ Receiver.noReceiver →
      matchItem (Item.fn f) =
        Matched.itemError f.name "constructor marker on a method with a receiver" ∧
      (buildModel [pre ++ Item.fn f :: post]).classes = (buildModel [pre ++ post]).classes ∧
      (buildModel [pre ++ Item.fn f :: post]).traits = (buildModel [pre ++ post]).traits ∧
      (buildModel [pre ++ Item.fn f :: post]).enums = (buildModel [pre ++ post]).enums ∧
      (f.name ++ ": " ++ "constructor marker on a method with a receiver") ∈
        (buildModel [pre ++ Item.fn f :: post]).errors := by
  intro f pre post hmark hrecv
  have hmatch : matchItem (Item.fn f) =
      Matched.itemError f.name "constructor marker on a method with a receiver" := by
    simp [matchItem, hmark, hrecv]
  refine ⟨hmatch, ?_, ?_, ?_, ?_⟩
  · rw [buildModel, buildModel, foldl_stepItem_classes, foldl_stepItem_classes]
    simp only [List.flatten, List.append_nil]
    rw [List.foldl_append, List.foldl_append, List.foldl_cons]
    congr 1
    simp [stepClasses, hmatch]
  · rw [buildModel, buildModel, foldl_stepItem_traits, foldl_stepItem_traits]
    simp only [List.flatten, List.append_nil]
    rw [traitContribs, traitContribs, List.filterMap_append, List.filterMap_append,
      List.filterMap_cons]
    simp [hmatch]
  · rw [buildModel, buildModel, foldl_stepItem_enums, foldl_stepItem_enums]
    simp only [List.flatten, List.append_nil]
    rw [enumContribs, enumContribs, List.filterMap_append, List.filterMap_append,
      List.filterMap_cons]
    simp [hmatch]
  · rw [buildModel, foldl_stepItem_errors]
    simp only [List.flatten, List.append_nil]
    rw [errorContribs, List.filterMap_append, List.filterMap_cons]
    simp [hmatch, emptyState]

/-- Witness for C5: the rejected bad_new item between two accepted items. -/
theorem spec_c5_ctor_with_receiver_witness :
    (buildModel [[fooCtorItem] ++ Item.fn badFnItem :: [fooMethodItem]]).classes =
      (buildModel [[fooCtorItem] ++ [fooMethodItem]]).classes ∧
    ("bad_new" ++ ": " ++ "constructor marker on a method with a receiver") ∈
      (buildModel [[fooCtorItem] ++ Item.fn badFnItem :: [fooMethodItem]]).errors := by
  have h := spec_c5_ctor_with_receiver badFnItem [fooCtorItem] [fooMethodItem] rfl (by decide)
  exact ⟨h.2.1, h.2.2.2.2⟩

/-- C6: classes appear in first-encountered order of their type names, and
traits and enums in first-encountered order of their declarations, the
order of file visitation and then of items within a file; the constructors
and methods recorded under one name keep first-encountered order; and each
rendered class clause places all constructor clauses before all method
clauses, each group in model order, with the rendered document emitting the
class clauses, then the trait clauses, then the enum clauses, each list in
model order. -/
theorem spec_c6_ordering :
    (∀ files : List (List Item),
      (buildModel files).classes.map (fun c => c.typeName) =
        encounterFold [] (contribNames files.flatten) ∧
      (buildModel files).traits = traitContribs files.flatten ∧
      (buildModel files).enums = enumContribs files.flatten ∧
      (∀ n : String,
        ctorsOf n (buildModel files).classes = ctorContribs n files.flatten ∧
        methodsOf n (buildModel files).classes = methodContribs n files.flatten)) ∧
    (∀ (lang : Language) (st : BuildState),
      renderModel lang st =
        ((exportedClasses st).map renderClass).flatten ++
          (st.traits.map renderTrait).flatten ++
          (st.enums.map renderEnum).flatten) ∧
    (∀ c : ClassDefinition,
      renderClass c =
        docLines c.doc ++
          ["foreign_class!(class " ++ c.typeName ++ " \x7b",
           "    self_type " ++ c.typeName ++ ";"] ++
          (c.constructors.map renderCtor).flatten ++
          (c.methods.map renderMethod).flatten ++
          ["\x7d);"]) := by
  refine ⟨?_, fun lang st => rfl, fun c => rfl⟩
  intro files
  refine ⟨?_, ?_, ?_, fun n => ⟨ctorsOf_buildModel n files, methodsOf_buildModel n files⟩⟩
  · rw [buildModel, foldl_stepItem_classes, map_typeName_foldl_stepClasses]
    rfl
  · rw [buildModel, foldl_stepItem_traits]
    rfl
  · rw [buildModel, foldl_stepItem_enums]
    rfl

/-- C7: the doc lines of a doc-marked struct are rendered verbatim, in
their original order, one rendered comment line per stored line, directly
above the class clause of the class they document, for every choice of doc
lines, casing policy and dialect. -/
theorem spec_c7_doc_verbatim :
    ∀ (ds : List String) (tc : TypeCases) (lang : Language),
      renderModel lang (convertState tc (buildModel (c7Tree ds))) =
        ds.map (fun l => "///" ++ l) ++
          ["foreign_class!(class Foo \x7b",
           "    self_type Foo;",
           "    constructor Foo::new(_: i32) -> Foo;",
           "\x7d);"] := by
  intro ds tc lang
  have hb : convertState tc (buildModel (c7Tree ds)) =
      ⟨[⟨"Foo", ds, [⟨"Foo", "new", [⟨some "val", "i32"⟩], []⟩], []⟩], [], [], []⟩ := rfl
  rw [hb]
  simp [renderModel, exportedClasses, renderClass, renderCtor, renderCtorLine,
    renderParams, docLines]
  decide

theorem foldl_stepItem_ignored (items : List Item) (st : BuildState)
    (h : ∀ i ∈ items, matchItem i = Matched.ignored) :
    items.foldl stepItem st = st := by
  induction items generalizing st with
  | nil => rfl
  | cons i rest ih =>
    rw [List.foldl_cons]
    have hstep : stepItem st i = st := by
      simp [stepItem, h i (by simp)]
    rw [hstep]
    exact ih st (fun x hx => h x (by simp [hx]))

/-- C8: when the destination directory exists and the files parsed, a run
over a tree in which every item is unmarked completes successfully and
writes the empty interface document, whose line list holds no class, trait
or enum clause; running again reproduces the same output. -/
theorem spec_c8_no_marked_items :
    ∀ (cfg : Config) (w : World),
      w.destDirExists = true →
      allFilesFailed w = false →
      (∀ i ∈ (okFiles w).flatten, matchItem i = Matched.ignored) →
      (runGenerator cfg w).1 = none ∧
      (runGenerator cfg w).2.outputFile = some "" ∧
      renderModel cfg.language (convertState cfg.typeCase (buildModel (okFiles w))) = [] ∧
      (runGenerator cfg (runGenerator cfg w).2).2.outputFile = some "" := by
  intro cfg w hd hf hitems
  have hbuild : buildModel (okFiles w) = emptyState :=
    foldl_stepItem_ignored (okFiles w).flatten emptyState hitems
  have hfb : allFilesFailed w ≠ true := by rw [hf]; exact Bool.false_ne_true
  have hrun : runGenerator cfg w = (none, { w with outputFile := some "" }) := by
    simp [runGenerator, hd, hfb, hbuild, collidingNames, emptyState, convertState,
      renderText, renderModel, exportedClasses, String.intercalate]
  have hrun2 : runGenerator cfg { w with outputFile := some "" } =
      (none, { w with outputFile := some "" }) := by
    simp [runGenerator, hd, hfb, hbuild, collidingNames, emptyState, convertState,
      renderText, renderModel, exportedClasses, String.intercalate, allFilesFailed_mk, okFiles_mk]
  refine ⟨by rw [hrun], by rw [hrun], ?_, ?_⟩
  · rw [hbuild]
    rfl
  · rw [hrun]
    simp [hrun2]

/-- Witness for C8 on a tree with one file holding one unmarked struct. -/
theorem spec_c8_no_marked_items_witness :
    (runGenerator ⟨TypeCases.Default, Language.Java⟩ (plainWorld [[fooStructItem]])).1 = none ∧
    (runGenerator ⟨TypeCases.Default, Language.Java⟩
      (plainWorld [[fooStructItem]])).2.outputFile = some "" := by
  have h := spec_c8_no_marked_items ⟨TypeCases.Default, Language.Java⟩
    (plainWorld [[fooStructItem]]) rfl (by decide) (by decide)
  exact ⟨h.1, h.2.1⟩

/-- C9: under any fatal condition, a missing destination directory, every
input file failing to parse, or a class sharing its identifier with a trait
or enum, the run aborts with an error and the world is unchanged, so no
output is written and any pre-existing file at the output path is kept
as it was. -/
theorem spec_c9_fatal_aborts :
    ∀ (cfg : Config) (w : World),
      (w.destDirExists = false ∨ allFilesFailed w = true ∨
        collidingNames (buildModel (okFiles w)) ≠ []) →
      (runGenerator cfg w).1.isSome = true ∧ (runGenerator cfg w).2 = w := by
  intro cfg w h
  by_cases hd : w.destDirExists = true
  · by_cases hf : allFilesFailed w = true
    · constructor <;> simp [runGenerator, hd, hf]
    · cases hcol : collidingNames (buildModel (okFiles w)) with
      | nil =>
        exfalso
        rcases h with h1 | h2 | h3
        · rw [hd] at h1
          exact absurd h1 (by decide)
        · exact hf h2
        · exact h3 hcol
      | cons n rest => constructor <;> simp [runGenerator, hd, hf, hcol]
  · have hd' : w.destDirExists = false := by
      cases hcase : w.destDirExists
      · rfl
      · exact absurd hcase hd
    constructor <;> simp [runGenerator, hd']

/-- Witness for C9 on a world whose destination directory is missing. -/
theorem spec_c9_fatal_aborts_witness :
    (runGenerator ⟨TypeCases.Default, Language.Java⟩
      (⟨false, [], some "kept"⟩ : World)).1.isSome = true ∧
    (runGenerator ⟨TypeCases.Default, Language.Java⟩
      (⟨false, [], some "kept"⟩ : World)).2 = (⟨false, [], some "kept"⟩ : World) :=
  spec_c9_fatal_aborts ⟨TypeCases.Default, Language.Java⟩ ⟨false, [], some "kept"⟩ (Or.inl rfl)

/-- C10: the public entry point returns the unit value for every input, so
no run error reaches the caller through the return type, and Generator::new
is a pure total constructor that stores exactly its three arguments and
touches no world. -/
theorem spec_c10_unit_return :
    ∀ (P I : Type) (tc : TypeCases) (lang : Language) (folder : P) (path : I) (w : World),
      (Generator.new tc lang folder).type_case = tc ∧
      (Generator.new tc lang folder).scr_folder = folder ∧
      (Generator.new tc lang folder).language = lang ∧
      ((Generator.new tc lang folder).generate_interface path w).1 = () :=
  fun P I tc lang folder path w => ⟨rfl, rfl, rfl, rfl⟩

end Rifgen

